import Mathlib

/-!
# Hub reconciliation of the cluster-manager operator

A shallow embedding of
`pkg/operators/clustermanager/controllers/clustermanagercontroller/clustermanager_hub_reconcile.go`:
the static resource catalogs, the selector `getHubResources`, the legacy
API-service cleanup `cleanApiservice`, the pass `reconcile` and the teardown
`clean`, followed by theorems about them.
-/

namespace ClusterManagerHub

/-! ## Data model -/

/-- The type `operatorapiv1.InstallMode`: a Go string type, so any string is a value. -/
abbrev InstallMode := String

/-- The constant `operatorapiv1.InstallModeHosted`. -/
def InstallModeHosted : InstallMode := "Hosted"

/-- The constant `operatorapiv1.InstallModeDefault`. -/
def InstallModeDefault : InstallMode := "Default"

/-- The webhook part of `manifests.HubConfig`; only the field read by this file. -/
structure WebhookConfig where
  IsIPFormat : Bool
  deriving DecidableEq, Repr

/-- The record `manifests.HubConfig`, restricted to the fields read by this file (the
remaining fields are consumed by the template renderer only). -/
structure HubConfig where
  AddOnManagerEnabled : Bool
  MWReplicaSetEnabled : Bool
  RegistrationWebhook : WebhookConfig
  WorkWebhook : WebhookConfig
  deriving DecidableEq, Repr

/-! ## Static catalogs (the package-level `var` block) -/

def namespaceResource : String := "cluster-manager/cluster-manager-namespace.yaml"

def hubRbacResourceFiles : List String := [
  -- registration
  "cluster-manager/hub/cluster-manager-registration-clusterrole.yaml",
  "cluster-manager/hub/cluster-manager-registration-clusterrolebinding.yaml",
  "cluster-manager/hub/cluster-manager-registration-serviceaccount.yaml",
  -- registration-webhook
  "cluster-manager/hub/cluster-manager-registration-webhook-clusterrole.yaml",
  "cluster-manager/hub/cluster-manager-registration-webhook-clusterrolebinding.yaml",
  "cluster-manager/hub/cluster-manager-registration-webhook-serviceaccount.yaml",
  -- work-webhook
  "cluster-manager/hub/cluster-manager-work-webhook-clusterrole.yaml",
  "cluster-manager/hub/cluster-manager-work-webhook-clusterrolebinding.yaml",
  "cluster-manager/hub/cluster-manager-work-webhook-serviceaccount.yaml",
  -- placement
  "cluster-manager/hub/cluster-manager-placement-clusterrole.yaml",
  "cluster-manager/hub/cluster-manager-placement-clusterrolebinding.yaml",
  "cluster-manager/hub/cluster-manager-placement-serviceaccount.yaml"]

def mwReplicaSetResourceFiles : List String := [
  "cluster-manager/hub/cluster-manager-manifestworkreplicaset-clusterrole.yaml",
  "cluster-manager/hub/cluster-manager-manifestworkreplicaset-clusterrolebinding.yaml",
  "cluster-manager/hub/cluster-manager-manifestworkreplicaset-serviceaccount.yaml"]

def hubAddOnManagerRbacResourceFiles : List String := [
  "cluster-manager/hub/cluster-manager-addon-manager-clusterrole.yaml",
  "cluster-manager/hub/cluster-manager-addon-manager-clusterrolebinding.yaml",
  "cluster-manager/hub/cluster-manager-addon-manager-serviceaccount.yaml"]

def hubDefaultWebhookServiceFiles : List String := [
  "cluster-manager/hub/cluster-manager-registration-webhook-service.yaml",
  "cluster-manager/hub/cluster-manager-work-webhook-service.yaml"]

def hubHostedWebhookServiceFiles : List String := [
  "cluster-manager/hub/cluster-manager-registration-webhook-service-hosted.yaml",
  "cluster-manager/hub/cluster-manager-work-webhook-service-hosted.yaml"]

def hubHostedWebhookEndpointRegistration : String :=
  "cluster-manager/hub/cluster-manager-registration-webhook-endpoint-hosted.yaml"

def hubHostedWebhookEndpointWork : String :=
  "cluster-manager/hub/cluster-manager-work-webhook-endpoint-hosted.yaml"

def hubWebhookAPIServiceNames : List String := [
  "v1.admission.cluster.open-cluster-management.io",
  "v1.admission.work.open-cluster-management.io"]

/-! ## The selector -/

/-- The function `getHubResources`: each Go `append` under an `if` becomes a
concatenation with a conditional suffix, in source order. -/
def getHubResources (mode : InstallMode) (config : HubConfig) : List String :=
  let hubResources := [namespaceResource]
  let hubResources := hubResources ++ hubRbacResourceFiles
  let hubResources :=
    if config.AddOnManagerEnabled then hubResources ++ hubAddOnManagerRbacResourceFiles
    else hubResources
  let hubResources :=
    if config.MWReplicaSetEnabled then hubResources ++ mwReplicaSetResourceFiles
    else hubResources
  if mode = InstallModeHosted then
    let hubResources := hubResources ++ hubHostedWebhookServiceFiles
    let hubResources :=
      if config.RegistrationWebhook.IsIPFormat then
        hubResources ++ [hubHostedWebhookEndpointRegistration]
      else hubResources
    let hubResources :=
      if config.WorkWebhook.IsIPFormat then hubResources ++ [hubHostedWebhookEndpointWork]
      else hubResources
    hubResources
  else
    hubResources ++ hubDefaultWebhookServiceFiles

/-- Every identifier of the static catalogs, in one list. -/
def catalog : List String :=
  namespaceResource :: hubRbacResourceFiles ++ hubAddOnManagerRbacResourceFiles
    ++ mwReplicaSetResourceFiles ++ hubHostedWebhookServiceFiles
    ++ [hubHostedWebhookEndpointRegistration, hubHostedWebhookEndpointWork]
    ++ hubDefaultWebhookServiceFiles

/-! ## Errors and their text -/

/-- A Go `error` value, by what this file observes of it: the text its `Error()` method
returns and whether `errors.IsNotFound` holds of it. -/
structure GoError where
  text : String
  notFound : Bool
  deriving DecidableEq, Repr

/-- The predicate `errors.IsNotFound` of `k8s.io/apimachinery/pkg/api/errors`. -/
def IsNotFound (err : GoError) : Bool := err.notFound

/-- The error built by `fmt.Errorf` with the given rendered text; without a `%w` verb it wraps
nothing, so it is never a not-found error. -/
def Errorf (text : String) : GoError := { text := text, notFound := false }

/-- The constant `lowerhex` of Go `strconv`. -/
def lowerhex : List Char := "0123456789abcdef".toList

/-- The hexadecimal digit `lowerhex[n]`. -/
def hexDigit (n : Nat) : Char := lowerhex.getD (n % 16) '0'

/-- Go `strconv.IsPrint`: decided by range tests up to U+00FF and by lookup tables above;
the tables are the parameter `table`. -/
def IsPrint (table : Char → Bool) (r : Char) : Bool :=
  if r.toNat ≤ 0xFF then
    if 0x20 ≤ r.toNat ∧ r.toNat < 0x7F then true
    else if 0xA1 ≤ r.toNat then r.toNat != 0xAD
    else false
  else table r

/-- Go `strconv.appendEscapedRune` for the double quote, neither ASCII-only nor graphic-only:
the characters one rune of a `%q` operand is rendered as. -/
def appendEscapedRune (table : Char → Bool) (r : Char) : List Char :=
  if r = Char.ofNat 34 ∨ r = Char.ofNat 92 then [Char.ofNat 92, r]
  else if IsPrint table r then [r]
  else if r.toNat = 7 then [Char.ofNat 92, 'a']
  else if r.toNat = 8 then [Char.ofNat 92, 'b']
  else if r.toNat = 12 then [Char.ofNat 92, 'f']
  else if r.toNat = 10 then [Char.ofNat 92, 'n']
  else if r.toNat = 13 then [Char.ofNat 92, 'r']
  else if r.toNat = 9 then [Char.ofNat 92, 't']
  else if r.toNat = 11 then [Char.ofNat 92, 'v']
  else if r.toNat < 0x20 ∨ r.toNat = 0x7F then
    [Char.ofNat 92, 'x', hexDigit (r.toNat / 16), hexDigit r.toNat]
  else if r.toNat < 0x10000 then
    [Char.ofNat 92, 'u', hexDigit (r.toNat / 4096), hexDigit (r.toNat / 256),
      hexDigit (r.toNat / 16), hexDigit r.toNat]
  else
    [Char.ofNat 92, 'U', hexDigit (r.toNat / 268435456), hexDigit (r.toNat / 16777216),
      hexDigit (r.toNat / 1048576), hexDigit (r.toNat / 65536), hexDigit (r.toNat / 4096),
      hexDigit (r.toNat / 256), hexDigit (r.toNat / 16), hexDigit r.toNat]

/-- The rendering of a string operand by the verb `%q` of Go `fmt` (`strconv.Quote`): the
escaped runes between two double quotes. A Lean string is valid Unicode, so the branch for
invalid UTF-8 bytes has no input here. -/
def goQuote (table : Char → Bool) (s : String) : String :=
  String.mk (Char.ofNat 34 :: (s.data.flatMap (appendEscapedRune table) ++ [Char.ofNat 34]))

/-- The loop of `aggregate.Error` of `k8s.io/apimachinery/pkg/util/errors` over the messages
still to visit: a message already seen is skipped, any other is appended to `result`, after
a separator when it is not the first. It returns the set of messages seen and the result. -/
def aggregateVisit : List String → List String → String → List String × String
  | [], seenerrs, result => (seenerrs, result)
  | msg :: rest, seenerrs, result =>
    if msg ∈ seenerrs then aggregateVisit rest seenerrs result
    else
      let seenerrs := msg :: seenerrs
      let result := if seenerrs.length > 1 then result ++ ", " else result
      aggregateVisit rest seenerrs (result ++ msg)

/-- The method `aggregate.Error`: the text of a combined error. Member errors are taken as
leaf errors, each contributing its own text; the brackets are left out when only one
distinct message was seen. -/
def aggregateError (errs : List GoError) : String :=
  match errs with
  | [] => ""
  | [e] => e.text
  | _ =>
    let visited := aggregateVisit (errs.map GoError.text) [] ""
    if visited.1.length = 1 then visited.2
    else "[" ++ visited.2 ++ "]"

/-- The function `utilerrors.NewAggregate`: nil for an empty list, else the combined error.
The list of this model holds no nil entry. -/
def NewAggregate (errlist : List GoError) : Option GoError :=
  if errlist.length = 0 then none
  else some { text := aggregateError errlist, notFound := false }

/-- The rendering of an optional error by the verb `%v`. -/
def fmtV (err : Option GoError) : String :=
  match err with
  | none => "<nil>"
  | some e => e.text

/-- Substring containment, as Go `strings.Contains`. -/
def Contains (s substr : String) : Prop := substr.data <:+: s.data

instance (s substr : String) : Decidable (Contains s substr) :=
  inferInstanceAs (Decidable (substr.data <:+: s.data))

/-! ## Status conditions -/

/-- The record `metav1.Condition`. The status is one of the strings "True", "False",
"Unknown"; the zero time is 0. -/
structure Condition where
  Type' : String
  Status : String
  ObservedGeneration : Int
  LastTransitionTime : Nat
  Reason : String
  Message : String
  deriving DecidableEq, Repr

/-- The constant `metav1.ConditionFalse`. -/
def ConditionFalse : String := "False"

/-- Modelled from the spec: the constant `clusterManagerApplied`, declared in another file of
the package; the spec gives the condition type as "Applied". -/
def clusterManagerApplied : String := "Applied"

/-- The update `meta.SetStatusCondition` performs on the condition it found. -/
def updateCondition (now : Nat) (existingCondition newCondition : Condition) : Condition :=
  let existingCondition :=
    if existingCondition.Status ≠ newCondition.Status then
      { existingCondition with
        Status := newCondition.Status
        LastTransitionTime :=
          if newCondition.LastTransitionTime ≠ 0 then newCondition.LastTransitionTime else now }
    else existingCondition
  { existingCondition with
    Reason := newCondition.Reason
    Message := newCondition.Message
    ObservedGeneration := newCondition.ObservedGeneration }

/-- Modelled from the spec: the upsert `meta.SetStatusCondition` of
`k8s.io/apimachinery/pkg/api/meta`, which is not under src/. The first condition whose type
matches is updated where it stands; when none matches, the new condition is appended, stamped
with the current time `now` if it carries none. -/
def SetStatusCondition (now : Nat) : List Condition → Condition → List Condition
  | [], newCondition =>
    [if newCondition.LastTransitionTime = 0 then
        { newCondition with LastTransitionTime := now }
      else newCondition]
  | c :: rest, newCondition =>
    if c.Type' = newCondition.Type' then updateCondition now c newCondition :: rest
    else c :: SetStatusCondition now rest newCondition

/-! ## The descriptor -/

/-- An entry of `Status.RelatedResources`. -/
structure RelatedResourceMeta where
  Group : String
  Version : String
  Resource : String
  Namespace : String
  Name : String
  deriving DecidableEq, Repr

/-- The part of `operatorapiv1.ClusterManagerStatus` this file touches. -/
structure ClusterManagerStatus where
  Conditions : List Condition
  RelatedResources : List RelatedResourceMeta
  deriving DecidableEq, Repr

structure ClusterManagerDeployOption where
  Mode : InstallMode
  deriving DecidableEq, Repr

/-- The part of `operatorapiv1.ClusterManagerSpec` this file reads. -/
structure ClusterManagerSpec where
  DeployOption : ClusterManagerDeployOption
  deriving DecidableEq, Repr

/-- The descriptor `operatorapiv1.ClusterManager`. -/
structure ClusterManager where
  Spec : ClusterManagerSpec
  Status : ClusterManagerStatus
  deriving DecidableEq, Repr

/-- Modelled from the spec: the type `reconcileState`, declared in another file of the
package, with its two values. -/
inductive reconcileState where
  | reconcileStop
  | reconcileContinue
  deriving DecidableEq, Repr

open reconcileState

/-- The record `resourceapply.ApplyResult` of library-go, whose declaration is not under
src/. `Type'` stands for the text the verb `%T` prints for the field `result.Type`; where
that field is declared a Go string, the text is `string` for every result. -/
structure ApplyResult where
  File : String
  Type' : String
  Changed : Bool
  Error : Option GoError
  deriving DecidableEq, Repr

/-! ## Collaborators and the trace of a pass -/

/-- A call made during a pass, with what it returned, in program order. -/
inductive Event where
  | cleanResources (files : List String) (err : Option GoError)
  | getHubResources (mode : InstallMode) (config : HubConfig)
  | ApplyDirectly (files : List String) (results : List ApplyResult)
  | Delete (name : String) (err : Option GoError)
  | SetStatusCondition (condition : Condition)
  deriving DecidableEq, Repr

/-- The collaborators reached through `hubKubeClient`, the clock and the Unicode tables.
Within one pass every call has arguments no other call has, so a function of the arguments
stands for any behaviour of the cluster.

`cleanResources` is modelled from the spec (it lives in another file of the package): it
removes the named resources and reports an error or none. It is handed the descriptor pointer
and returns that pointer; through it the callee writes `Status.RelatedResources` and nothing
else (it drops the entries of what it removes), so its answer here is the list it leaves
there, the state and the error. `ApplyDirectly` is `helpers.ApplyDirectly` with the render
callback of `reconcile`: it returns the apply results and the `RelatedResources` the callback
has accumulated. -/
structure Collaborators where
  cleanResources :
    ClusterManager → HubConfig → List String →
      List RelatedResourceMeta × reconcileState × Option GoError
  ApplyDirectly :
    ClusterManager → HubConfig → List String → List ApplyResult × List RelatedResourceMeta
  now : Nat
  isPrintTable : Char → Bool

/-- The receiver `hubReoncile`: the API registration client is nil (`none`) or answers each
`APIServices().Delete` of a name with an error or none. -/
structure hubReoncile where
  hubAPIRegistrationClient : Option (String → Option GoError)

/-- What a pass returns, with the trace of the calls it made. -/
structure Outcome where
  cm : ClusterManager
  state : reconcileState
  err : Option GoError
  trace : List Event
  deriving DecidableEq, Repr

/-! ## The legacy cleanup -/

/-- The `for` loop of `cleanApiservice` over the names still to delete: the error returned
and the deletions attempted. -/
def cleanApiserviceLoop (client : String → Option GoError) :
    List String → Option GoError × List Event
  | [] => (none, [])
  | apiServiceName :: rest =>
    let err := client apiServiceName
    match err with
    | some e =>
      if !IsNotFound e then (err, [Event.Delete apiServiceName err])
      else
        let r := cleanApiserviceLoop client rest
        (r.1, Event.Delete apiServiceName err :: r.2)
    | none =>
      let r := cleanApiserviceLoop client rest
      (r.1, Event.Delete apiServiceName err :: r.2)

/-- The method `cleanApiservice`. -/
def cleanApiservice (c : hubReoncile) : Option GoError × List Event :=
  match c.hubAPIRegistrationClient with
  | none => (some (Errorf "apiRegistrationClient is nil"), [])
  | some client => cleanApiserviceLoop client hubWebhookAPIServiceNames

/-! ## The pass and the teardown -/

/-- The descriptor behind the pointer once a callee has written `Status.RelatedResources`
through it. -/
def withRelatedResources (cm : ClusterManager) (related : List RelatedResourceMeta) :
    ClusterManager :=
  { cm with Status := { cm.Status with RelatedResources := related } }

/-- One guarded removal at the head of `reconcile`,
`if !enabled { _, _, err := cleanResources(..., cm, config, files...) }`: the descriptor
behind `cm` after the call, the error of the call (none when the call is skipped) and the
call made. -/
def removeDisabled (w : Collaborators) (cm : ClusterManager) (config : HubConfig)
    (enabled : Bool) (files : List String) : ClusterManager × Option GoError × List Event :=
  if !enabled then
    let r := w.cleanResources cm config files
    (withRelatedResources cm r.1, r.2.2, [Event.cleanResources files r.2.2])
  else (cm, none, [])

/-- The error appended for one failing result,
`fmt.Errorf("%q (%T): %v", result.File, result.Type, result.Error)`. -/
def resultError (w : Collaborators) (result : ApplyResult) : GoError :=
  Errorf (goQuote w.isPrintTable result.File ++ " (" ++ result.Type' ++ "): "
    ++ fmtV result.Error)

/-- The failure condition `reconcile` writes. -/
def failureCondition (appliedErrs : List GoError) : Condition :=
  { Type' := clusterManagerApplied
    Status := ConditionFalse
    ObservedGeneration := 0
    LastTransitionTime := 0
    Reason := "HubResourceApplyFailed"
    Message := "Failed to apply hub resources: " ++ fmtV (NewAggregate appliedErrs) }

/-- The method `reconcile`. -/
def reconcile (w : Collaborators) (c : hubReoncile) (cm : ClusterManager)
    (config : HubConfig) : Outcome :=
  -- If AddOnManager is not enabled, remove related resources
  match removeDisabled w cm config config.AddOnManagerEnabled
      hubAddOnManagerRbacResourceFiles with
  | (cm, some err, t1) => { cm := cm, state := reconcileStop, err := some err, trace := t1 }
  | (cm, none, t1) =>
    -- Remove ManifestWokReplicaSet deployment if feature not enabled
    match removeDisabled w cm config config.MWReplicaSetEnabled mwReplicaSetResourceFiles with
    | (cm, some err, t2) =>
      { cm := cm, state := reconcileStop, err := some err, trace := t1 ++ t2 }
    | (cm, none, t2) =>
      let hubResources := getHubResources cm.Spec.DeployOption.Mode config
      let applied := w.ApplyDirectly cm config hubResources
      let resourceResults := applied.1
      let cm : ClusterManager := withRelatedResources cm applied.2
      let cleaned := cleanApiservice c
      let appliedErrs : List GoError :=
        match cleaned.1 with
        | some err => [err]
        | none => []
      let appliedErrs := appliedErrs ++
        (resourceResults.filter (fun result => result.Error.isSome)).map (resultError w)
      let trace := t1 ++ t2 ++
        [Event.getHubResources cm.Spec.DeployOption.Mode config,
          Event.ApplyDirectly hubResources resourceResults] ++ cleaned.2
      if appliedErrs.length > 0 then
        let condition := failureCondition appliedErrs
        { cm := { cm with
            Status := { cm.Status with
              Conditions := SetStatusCondition w.now cm.Status.Conditions condition } }
          state := reconcileStop
          err := NewAggregate appliedErrs
          trace := trace ++ [Event.SetStatusCondition condition] }
      else
        { cm := cm, state := reconcileContinue, err := none, trace := trace }

/-- The method `clean`. -/
def clean (w : Collaborators) (cm : ClusterManager) (config : HubConfig) : Outcome :=
  let hubResources := getHubResources cm.Spec.DeployOption.Mode config
  let r := w.cleanResources cm config hubResources
  { cm := withRelatedResources cm r.1, state := r.2.1, err := r.2.2
    trace := [Event.getHubResources cm.Spec.DeployOption.Mode config,
      Event.cleanResources hubResources r.2.2] }

/-! ## Vocabulary of the statements -/

/-- The descriptor after the guarded removal of the AddOnManager group. -/
def afterAddOnRemoval (w : Collaborators) (cm : ClusterManager) (config : HubConfig) :
    ClusterManager :=
  (removeDisabled w cm config config.AddOnManagerEnabled hubAddOnManagerRbacResourceFiles).1

/-- The descriptor after both guarded removals. -/
def decommissioned (w : Collaborators) (cm : ClusterManager) (config : HubConfig) :
    ClusterManager :=
  (removeDisabled w (afterAddOnRemoval w cm config) config config.MWReplicaSetEnabled
    mwReplicaSetResourceFiles).1

/-- The feature-decommission step succeeds: neither guarded removal returns an error. -/
def decommissionSucceeds (w : Collaborators) (cm : ClusterManager) (config : HubConfig) : Prop :=
  (removeDisabled w cm config config.AddOnManagerEnabled hubAddOnManagerRbacResourceFiles).2.1
      = none ∧
  (removeDisabled w (afterAddOnRemoval w cm config) config config.MWReplicaSetEnabled
    mwReplicaSetResourceFiles).2.1 = none

instance (w : Collaborators) (cm : ClusterManager) (config : HubConfig) :
    Decidable (decommissionSucceeds w cm config) :=
  inferInstanceAs (Decidable (_ ∧ _))

/-- The results the apply primitive returns for the desired set of the descriptor, once the
decommission step has run. -/
def applyResults (w : Collaborators) (cm : ClusterManager) (config : HubConfig) :
    List ApplyResult :=
  (w.ApplyDirectly (decommissioned w cm config) config
    (getHubResources cm.Spec.DeployOption.Mode config)).1

/-- The list `appliedErrs` of `reconcile` when its loop over the results has run. -/
def appliedErrsOf (w : Collaborators) (c : hubReoncile) (cm : ClusterManager)
    (config : HubConfig) : List GoError :=
  (match (cleanApiservice c).1 with
    | some err => [err]
    | none => []) ++
  ((applyResults w cm config).filter (fun result => result.Error.isSome)).map (resultError w)

/-- The removal calls of a pass whose decommission step runs to its end. -/
def removalTrace (w : Collaborators) (cm : ClusterManager) (config : HubConfig) : List Event :=
  (removeDisabled w cm config config.AddOnManagerEnabled
    hubAddOnManagerRbacResourceFiles).2.2 ++
  (removeDisabled w (afterAddOnRemoval w cm config) config config.MWReplicaSetEnabled
    mwReplicaSetResourceFiles).2.2

/-- A deletion answer that lets the cleanup loop go on: no error, or a not-found error. -/
def deletionOk (err : Option GoError) : Bool :=
  match err with
  | none => true
  | some e => IsNotFound e

/-! ## Concrete inputs and further vocabulary -/

/-- A descriptor in Default mode with an empty status. -/
def sampleManager : ClusterManager :=
  { Spec := { DeployOption := { Mode := InstallModeDefault } }
    Status := { Conditions := [], RelatedResources := [] } }

/-- A configuration with both optional features enabled. -/
def allEnabled : HubConfig :=
  { AddOnManagerEnabled := true, MWReplicaSetEnabled := true
    RegistrationWebhook := { IsIPFormat := false }, WorkWebhook := { IsIPFormat := false } }

/-- A configuration with both optional features disabled. -/
def allDisabled : HubConfig :=
  { AddOnManagerEnabled := false, MWReplicaSetEnabled := false
    RegistrationWebhook := { IsIPFormat := false }, WorkWebhook := { IsIPFormat := false } }

/-- A cluster on which every removal and every apply succeeds. -/
def quietCluster : Collaborators :=
  { cleanResources := fun cm _ _ => (cm.Status.RelatedResources, reconcileContinue, none)
    ApplyDirectly := fun cm _ files =>
      (files.map (fun f =>
        { File := f, Type' := "string", Changed := true, Error := none }),
        cm.Status.RelatedResources)
    now := 1
    isPrintTable := fun _ => false }

/-- A cluster on which every removal is refused, after the entries of the cluster roles
have been dropped from the related resources of the descriptor. -/
def refusingCluster : Collaborators :=
  { quietCluster with
    cleanResources := fun cm _ _ =>
      (cm.Status.RelatedResources.filter (fun r => r.Resource != "clusterroles"),
        reconcileContinue, some (Errorf "removal refused")) }

/-- A descriptor in Default mode whose status holds an Applied condition and two related
resources, one of them a cluster role of the AddOnManager. -/
def trackedManager : ClusterManager :=
  { Spec := { DeployOption := { Mode := InstallModeDefault } }
    Status :=
      { Conditions :=
          [{ Type' := "Applied", Status := "True", ObservedGeneration := 1
             LastTransitionTime := 7, Reason := "ClusterManagerApplied", Message := "ok" }]
        RelatedResources :=
          [{ Group := "rbac.authorization.k8s.io", Version := "v1", Resource := "clusterroles"
             Namespace := "", Name := "open-cluster-management:cluster-manager-addon-manager" },
            { Group := "", Version := "v1", Resource := "namespaces"
              Namespace := "", Name := "open-cluster-management-hub" }] } }

/-- A receiver without API registration client. -/
def withoutClient : hubReoncile := { hubAPIRegistrationClient := none }

/-- A receiver whose client finds no legacy API service. -/
def cleanClient : hubReoncile :=
  { hubAPIRegistrationClient := some (fun _ => some { text := "not found", notFound := true }) }

/-- A receiver whose client refuses every deletion. -/
def forbiddenClient : hubReoncile :=
  { hubAPIRegistrationClient := some (fun _ => some { text := "forbidden", notFound := false }) }

/-- A rune the verb `%q` copies unchanged: printable ASCII other than the double quote and
the backslash. -/
def plainRune (r : Char) : Bool :=
  decide (0x20 ≤ r.toNat) && decide (r.toNat < 0x7F) && decide (r.toNat ≠ 34)
    && decide (r.toNat ≠ 92)

/-- A cluster on which the first three resources of the baseline fail to apply and the next
two succeed. -/
def failingCluster : Collaborators :=
  { quietCluster with
    ApplyDirectly := fun cm _ _ =>
      ([{ File := "cluster-manager/cluster-manager-namespace.yaml"
          Type' := "string", Changed := false
          Error := some { text := "namespaces is forbidden", notFound := false } },
        { File := "cluster-manager/hub/cluster-manager-registration-clusterrole.yaml"
          Type' := "string", Changed := false
          Error := some { text := "clusterroles is forbidden", notFound := false } },
        { File := "cluster-manager/hub/cluster-manager-registration-clusterrolebinding.yaml"
          Type' := "string", Changed := false
          Error := some { text := "clusterrolebindings is forbidden", notFound := false } },
        { File := "cluster-manager/hub/cluster-manager-registration-serviceaccount.yaml"
          Type' := "string", Changed := true, Error := none },
        { File := "cluster-manager/hub/cluster-manager-placement-serviceaccount.yaml"
          Type' := "string", Changed := true, Error := none }],
        cm.Status.RelatedResources) }

/-- A descriptor whose status already holds an Applied condition between two others. -/
def appliedManager : ClusterManager :=
  { Spec := { DeployOption := { Mode := InstallModeHosted } }
    Status :=
      { Conditions :=
          [{ Type' := "Progressing", Status := "False", ObservedGeneration := 1
             LastTransitionTime := 5, Reason := "Done", Message := "" },
            { Type' := "Applied", Status := "True", ObservedGeneration := 1
              LastTransitionTime := 7, Reason := "ClusterManagerApplied", Message := "ok" },
            { Type' := "Degraded", Status := "False", ObservedGeneration := 1
              LastTransitionTime := 9, Reason := "Healthy", Message := "" }]
        RelatedResources := [] } }

/-- The condition `meta.SetStatusCondition` appends when no condition has the type. -/
def stampedCondition (now : Nat) (newCondition : Condition) : Condition :=
  if newCondition.LastTransitionTime = 0 then { newCondition with LastTransitionTime := now }
  else newCondition

/-! ## Theorems -/

theorem catalog_nodup : catalog.Nodup := by
  decide

/-- The hosted branch of `getHubResources`, as a closed form over the four flags. -/
theorem getHubResources_hosted (config : HubConfig) :
    getHubResources InstallModeHosted config =
      namespaceResource :: hubRbacResourceFiles
        ++ (if config.AddOnManagerEnabled then hubAddOnManagerRbacResourceFiles else [])
        ++ (if config.MWReplicaSetEnabled then mwReplicaSetResourceFiles else [])
        ++ hubHostedWebhookServiceFiles
        ++ (if config.RegistrationWebhook.IsIPFormat then
              [hubHostedWebhookEndpointRegistration] else [])
        ++ (if config.WorkWebhook.IsIPFormat then [hubHostedWebhookEndpointWork] else []) := by
  obtain ⟨a, m, ⟨r⟩, ⟨w⟩⟩ := config
  cases a <;> cases m <;> cases r <;> cases w <;> simp [getHubResources]

/-- The non-hosted branch of `getHubResources`, as a closed form over the two flags it reads. -/
theorem getHubResources_default (mode : InstallMode) (config : HubConfig)
    (h : mode ≠ InstallModeHosted) :
    getHubResources mode config =
      namespaceResource :: hubRbacResourceFiles
        ++ (if config.AddOnManagerEnabled then hubAddOnManagerRbacResourceFiles else [])
        ++ (if config.MWReplicaSetEnabled then mwReplicaSetResourceFiles else [])
        ++ hubDefaultWebhookServiceFiles := by
  obtain ⟨a, m, r, w⟩ := config
  cases a <;> cases m <;> simp [getHubResources, h]

/-- C1: for every install mode and every HubConfig, the list returned by
`getHubResources` contains no identifier twice. -/
theorem getHubResources_nodup (mode : InstallMode) (config : HubConfig) :
    (getHubResources mode config).Nodup := by
  by_cases h : mode = InstallModeHosted
  · subst h
    rw [getHubResources_hosted]
    generalize config.AddOnManagerEnabled = a
    generalize config.MWReplicaSetEnabled = m
    generalize config.RegistrationWebhook.IsIPFormat = r
    generalize config.WorkWebhook.IsIPFormat = w
    cases a <;> cases m <;> cases r <;> cases w <;> decide
  · rw [getHubResources_default mode config h]
    generalize config.AddOnManagerEnabled = a
    generalize config.MWReplicaSetEnabled = m
    cases a <;> cases m <;> decide

/-- C5: a mode other than Hosted yields both default webhook service files and none of the
four hosted-exclusive identifiers; mode Hosted yields both hosted webhook service files and
neither default webhook service file. -/
theorem getHubResources_mode_exclusive (mode : InstallMode) (config : HubConfig) :
    (mode ≠ InstallModeHosted →
      (∀ f ∈ hubDefaultWebhookServiceFiles, f ∈ getHubResources mode config) ∧
      (∀ f ∈ hubHostedWebhookServiceFiles, f ∉ getHubResources mode config) ∧
      hubHostedWebhookEndpointRegistration ∉ getHubResources mode config ∧
      hubHostedWebhookEndpointWork ∉ getHubResources mode config) ∧
    ((∀ f ∈ hubHostedWebhookServiceFiles, f ∈ getHubResources InstallModeHosted config) ∧
      (∀ f ∈ hubDefaultWebhookServiceFiles, f ∉ getHubResources InstallModeHosted config)) := by
  refine ⟨fun h => ?_, ?_⟩
  · rw [getHubResources_default mode config h]
    generalize config.AddOnManagerEnabled = a
    generalize config.MWReplicaSetEnabled = m
    cases a <;> cases m <;> decide
  · rw [getHubResources_hosted]
    generalize config.AddOnManagerEnabled = a
    generalize config.MWReplicaSetEnabled = m
    generalize config.RegistrationWebhook.IsIPFormat = r
    generalize config.WorkWebhook.IsIPFormat = w
    cases a <;> cases m <;> cases r <;> cases w <;> decide

/-- C6: the registration webhook endpoint file is selected exactly when the mode is Hosted
and the registration webhook is IP-formatted; independently the work webhook endpoint file is
selected exactly when the mode is Hosted and the work webhook is IP-formatted; Hosted with
registration IP-formatted and work not IP-formatted selects the registration one only. -/
theorem getHubResources_endpoint_iff (mode : InstallMode) (config : HubConfig) :
    (hubHostedWebhookEndpointRegistration ∈ getHubResources mode config ↔
      (mode = InstallModeHosted ∧ config.RegistrationWebhook.IsIPFormat = true)) ∧
    (hubHostedWebhookEndpointWork ∈ getHubResources mode config ↔
      (mode = InstallModeHosted ∧ config.WorkWebhook.IsIPFormat = true)) ∧
    ((mode = InstallModeHosted ∧ config.RegistrationWebhook.IsIPFormat = true ∧
        config.WorkWebhook.IsIPFormat = false) →
      (getHubResources mode config).filter
          (fun f => f = hubHostedWebhookEndpointRegistration ∨ f = hubHostedWebhookEndpointWork)
        = [hubHostedWebhookEndpointRegistration]) := by
  by_cases h : mode = InstallModeHosted
  · subst h
    rw [getHubResources_hosted]
    generalize config.AddOnManagerEnabled = a
    generalize config.MWReplicaSetEnabled = m
    generalize config.RegistrationWebhook.IsIPFormat = r
    generalize config.WorkWebhook.IsIPFormat = w
    cases a <;> cases m <;> cases r <;> cases w <;> decide
  · rw [getHubResources_default mode config h]
    generalize config.AddOnManagerEnabled = a
    generalize config.MWReplicaSetEnabled = m
    simp only [h, false_and, iff_false, false_implies, and_true]
    cases a <;> cases m <;> decide

/-! ### The legacy cleanup and the decommission step -/

/-- Every event of the cleanup loop is a deletion of one of the names, with the answer of
the client. -/
theorem cleanApiserviceLoop_events (client : String → Option GoError) (names : List String) :
    ∀ ev ∈ (cleanApiserviceLoop client names).2,
      ∃ n ∈ names, ev = Event.Delete n (client n) := by
  induction names with
  | nil => simp [cleanApiserviceLoop]
  | cons n rest ih =>
    intro ev hev
    unfold cleanApiserviceLoop at hev
    cases hc : client n with
    | none =>
      simp only [hc, List.mem_cons] at hev
      rcases hev with h | h
      · exact ⟨n, by simp, by rw [h, hc]⟩
      · obtain ⟨m, hm, he⟩ := ih ev h
        exact ⟨m, by simp [hm], he⟩
    | some e =>
      simp only [hc] at hev
      by_cases hnf : IsNotFound e = true
      · simp only [hnf, Bool.not_true, Bool.false_eq_true, if_false, List.mem_cons] at hev
        rcases hev with h | h
        · exact ⟨n, by simp, by rw [h, hc]⟩
        · obtain ⟨m, hm, he⟩ := ih ev h
          exact ⟨m, by simp [hm], he⟩
      · simp only [hnf, Bool.not_false, if_true, List.mem_singleton] at hev
        exact ⟨n, by simp, by rw [hev, hc]⟩

/-- The cleanup loop over names whose deletions all succeed or report not-found attempts
every one of them, in order, and returns no error. -/
theorem cleanApiserviceLoop_all_ok (client : String → Option GoError) (names : List String)
    (h : ∀ n ∈ names, deletionOk (client n) = true) :
    cleanApiserviceLoop client names = (none, names.map (fun n => Event.Delete n (client n))) := by
  induction names with
  | nil => simp [cleanApiserviceLoop]
  | cons n rest ih =>
    have hn := h n (by simp)
    have ih1 := ih (fun m hm => h m (by simp [hm]))
    unfold cleanApiserviceLoop
    cases hc : client n with
    | none => simp [ih1, hc]
    | some e =>
      rw [hc] at hn
      simp only [deletionOk] at hn
      simp [hn, ih1, hc]

/-- The cleanup loop stops at the first deletion whose error is not a not-found error: it
returns that error and has attempted the names up to that one only. -/
theorem cleanApiserviceLoop_first_failure (client : String → Option GoError)
    (pre : List String) (name : String) (post : List String) (e : GoError)
    (hpre : ∀ n ∈ pre, deletionOk (client n) = true)
    (hname : client name = some e) (hnf : IsNotFound e = false) :
    cleanApiserviceLoop client (pre ++ name :: post) =
      (some e, (pre ++ [name]).map (fun n => Event.Delete n (client n))) := by
  induction pre with
  | nil =>
    simp [cleanApiserviceLoop, hname, hnf]
  | cons n rest ih =>
    have hn := hpre n (by simp)
    have ih1 := ih (fun m hm => hpre m (by simp [hm]))
    simp only [List.cons_append]
    unfold cleanApiserviceLoop
    cases hc : client n with
    | none => simp [ih1, hc]
    | some e1 =>
      rw [hc] at hn
      simp only [deletionOk] at hn
      simp [hn, ih1, hc]

theorem cleanApiservice_events (c : hubReoncile) :
    ∀ ev ∈ (cleanApiservice c).2, ∃ n err, ev = Event.Delete n err := by
  intro ev hev
  unfold cleanApiservice at hev
  cases hc : c.hubAPIRegistrationClient with
  | none => simp [hc] at hev
  | some client =>
    simp only [hc] at hev
    obtain ⟨n, _, he⟩ := cleanApiserviceLoop_events client _ ev hev
    exact ⟨n, client n, he⟩

/-- A guarded removal writes nothing of the descriptor but its related resources. -/
theorem removeDisabled_frame (w : Collaborators) (cm : ClusterManager) (config : HubConfig)
    (enabled : Bool) (files : List String) :
    (removeDisabled w cm config enabled files).1.Spec = cm.Spec ∧
    (removeDisabled w cm config enabled files).1.Status.Conditions = cm.Status.Conditions := by
  cases enabled <;> simp [removeDisabled, withRelatedResources]

/-- The decommission step writes nothing of the descriptor but its related resources. -/
theorem decommissioned_frame (w : Collaborators) (cm : ClusterManager) (config : HubConfig) :
    (afterAddOnRemoval w cm config).Spec = cm.Spec ∧
    (afterAddOnRemoval w cm config).Status.Conditions = cm.Status.Conditions ∧
    (decommissioned w cm config).Spec = cm.Spec ∧
    (decommissioned w cm config).Status.Conditions = cm.Status.Conditions := by
  have h1 := removeDisabled_frame w cm config config.AddOnManagerEnabled
    hubAddOnManagerRbacResourceFiles
  have h2 := removeDisabled_frame w (afterAddOnRemoval w cm config) config
    config.MWReplicaSetEnabled mwReplicaSetResourceFiles
  refine ⟨h1.1, h1.2, ?_, ?_⟩
  · exact h2.1.trans h1.1
  · exact h2.2.trans h1.2

/-- A guarded removal makes a call only for a disabled feature, and the call is the removal
of the given files with the error the step reports. -/
theorem removeDisabled_events (w : Collaborators) (cm : ClusterManager) (config : HubConfig)
    (enabled : Bool) (files : List String) :
    ∀ ev ∈ (removeDisabled w cm config enabled files).2.2,
      enabled = false ∧
        ev = Event.cleanResources files (removeDisabled w cm config enabled files).2.1 := by
  intro ev hev
  cases enabled <;> simp [removeDisabled] at hev ⊢
  exact hev

theorem removeDisabled_disabled (w : Collaborators) (cm : ClusterManager) (config : HubConfig)
    (files : List String) :
    removeDisabled w cm config false files =
      (withRelatedResources cm (w.cleanResources cm config files).1,
        (w.cleanResources cm config files).2.2,
        [Event.cleanResources files (w.cleanResources cm config files).2.2]) := by
  simp [removeDisabled]

/-- The pass when the removal of the AddOnManager group fails. -/
theorem reconcile_of_addOn_failed (w : Collaborators) (c : hubReoncile)
    (cm : ClusterManager) (config : HubConfig) (e : GoError)
    (h : (removeDisabled w cm config config.AddOnManagerEnabled
      hubAddOnManagerRbacResourceFiles).2.1 = some e) :
    reconcile w c cm config =
      { cm := afterAddOnRemoval w cm config, state := reconcileStop, err := some e
        trace := (removeDisabled w cm config config.AddOnManagerEnabled
          hubAddOnManagerRbacResourceFiles).2.2 } := by
  rcases hx : removeDisabled w cm config config.AddOnManagerEnabled
    hubAddOnManagerRbacResourceFiles with ⟨cm1, e1, t1⟩
  rw [hx] at h
  simp only at h
  subst h
  simp only [reconcile, afterAddOnRemoval, hx]

/-- The pass when the removal of the ManifestWorkReplicaSet group fails. -/
theorem reconcile_of_mw_failed (w : Collaborators) (c : hubReoncile)
    (cm : ClusterManager) (config : HubConfig) (e : GoError)
    (h1 : (removeDisabled w cm config config.AddOnManagerEnabled
      hubAddOnManagerRbacResourceFiles).2.1 = none)
    (h2 : (removeDisabled w (afterAddOnRemoval w cm config) config config.MWReplicaSetEnabled
      mwReplicaSetResourceFiles).2.1 = some e) :
    reconcile w c cm config =
      { cm := decommissioned w cm config, state := reconcileStop, err := some e
        trace := (removeDisabled w cm config config.AddOnManagerEnabled
            hubAddOnManagerRbacResourceFiles).2.2 ++
          (removeDisabled w (afterAddOnRemoval w cm config) config config.MWReplicaSetEnabled
            mwReplicaSetResourceFiles).2.2 } := by
  unfold decommissioned
  unfold afterAddOnRemoval at h2 ⊢
  obtain ⟨cm1, e1, t1, hx⟩ : ∃ cm1 e1 t1, removeDisabled w cm config
      config.AddOnManagerEnabled hubAddOnManagerRbacResourceFiles = (cm1, e1, t1) :=
    ⟨_, _, _, rfl⟩
  rw [hx] at h1 h2 ⊢
  simp only at h1 h2 ⊢
  obtain ⟨cm2, e2, t2, hy⟩ : ∃ cm2 e2 t2, removeDisabled w cm1 config
      config.MWReplicaSetEnabled mwReplicaSetResourceFiles = (cm2, e2, t2) :=
    ⟨_, _, _, rfl⟩
  rw [hy] at h2 ⊢
  simp only at h2 ⊢
  subst h1 h2
  simp only [reconcile, hx, hy]

/-- The pass after a decommission step that succeeded, as one closed form. -/
theorem reconcile_of_decommissioned (w : Collaborators) (c : hubReoncile)
    (cm : ClusterManager) (config : HubConfig) (h : decommissionSucceeds w cm config) :
    reconcile w c cm config =
      if (appliedErrsOf w c cm config).length > 0 then
        { cm :=
            { Spec := cm.Spec
              Status :=
                { Conditions := SetStatusCondition w.now cm.Status.Conditions
                    (failureCondition (appliedErrsOf w c cm config))
                  RelatedResources := (w.ApplyDirectly (decommissioned w cm config) config
                    (getHubResources cm.Spec.DeployOption.Mode config)).2 } }
          state := reconcileStop
          err := NewAggregate (appliedErrsOf w c cm config)
          trace := removalTrace w cm config ++
            [Event.getHubResources cm.Spec.DeployOption.Mode config,
              Event.ApplyDirectly (getHubResources cm.Spec.DeployOption.Mode config)
                (applyResults w cm config)] ++ (cleanApiservice c).2 ++
            [Event.SetStatusCondition (failureCondition (appliedErrsOf w c cm config))] }
      else
        { cm :=
            { Spec := cm.Spec
              Status :=
                { Conditions := cm.Status.Conditions
                  RelatedResources := (w.ApplyDirectly (decommissioned w cm config) config
                    (getHubResources cm.Spec.DeployOption.Mode config)).2 } }
          state := reconcileContinue
          err := none
          trace := removalTrace w cm config ++
            [Event.getHubResources cm.Spec.DeployOption.Mode config,
              Event.ApplyDirectly (getHubResources cm.Spec.DeployOption.Mode config)
                (applyResults w cm config)] ++ (cleanApiservice c).2 } := by
  obtain ⟨hs1, hc1, hs2, hc2⟩ := decommissioned_frame w cm config
  obtain ⟨h1, h2⟩ := h
  unfold appliedErrsOf removalTrace applyResults
  unfold decommissioned at hs2 hc2 ⊢
  unfold afterAddOnRemoval at h2 hs2 hc2 ⊢
  obtain ⟨cm1, e1, t1, hx⟩ : ∃ cm1 e1 t1, removeDisabled w cm config
      config.AddOnManagerEnabled hubAddOnManagerRbacResourceFiles = (cm1, e1, t1) :=
    ⟨_, _, _, rfl⟩
  rw [hx] at h1 h2 hs2 hc2 ⊢
  simp only at h1 h2 hs2 hc2 ⊢
  obtain ⟨cm2, e2, t2, hy⟩ : ∃ cm2 e2 t2, removeDisabled w cm1 config
      config.MWReplicaSetEnabled mwReplicaSetResourceFiles = (cm2, e2, t2) :=
    ⟨_, _, _, rfl⟩
  rw [hy] at h2 hs2 hc2 ⊢
  simp only at h2 hs2 hc2 ⊢
  subst h1 h2
  simp only [reconcile, hx, hy, withRelatedResources, hs2, hc2]

/-- The trace of a pass whose decommission step succeeded: the removal calls, the selector,
the apply primitive, the deletions, and the condition write when there is one. -/
theorem reconcile_trace_of_decommissioned (w : Collaborators) (c : hubReoncile)
    (cm : ClusterManager) (config : HubConfig) (h : decommissionSucceeds w cm config) :
    (reconcile w c cm config).trace =
      removalTrace w cm config ++
        [Event.getHubResources cm.Spec.DeployOption.Mode config,
          Event.ApplyDirectly (getHubResources cm.Spec.DeployOption.Mode config)
            (applyResults w cm config)] ++ (cleanApiservice c).2 ++
        (if (appliedErrsOf w c cm config).length > 0 then
          [Event.SetStatusCondition (failureCondition (appliedErrsOf w c cm config))]
        else []) := by
  rw [reconcile_of_decommissioned w c cm config h]
  split <;> simp

/-- C3: when the removal of a disabled feature's resource group returns an error, the pass
returns at once the descriptor it was handed, with reconcileStop and exactly that error; the
apply primitive is not invoked and no status condition is written. The descriptor comes back
as the removal calls left it: they write its related resources through the pointer, and its
spec and its status conditions are as they were. -/
theorem reconcile_decommission_error (w : Collaborators) (c : hubReoncile)
    (cm : ClusterManager) (config : HubConfig) (files : List String) (e : GoError)
    (h : Event.cleanResources files (some e) ∈ (reconcile w c cm config).trace) :
    ((files = hubAddOnManagerRbacResourceFiles ∧ config.AddOnManagerEnabled = false ∧
        (reconcile w c cm config).cm = afterAddOnRemoval w cm config) ∨
      (files = mwReplicaSetResourceFiles ∧ config.MWReplicaSetEnabled = false ∧
        (reconcile w c cm config).cm = decommissioned w cm config)) ∧
    (reconcile w c cm config).cm.Spec = cm.Spec ∧
    (reconcile w c cm config).cm.Status.Conditions = cm.Status.Conditions ∧
    (reconcile w c cm config).state = reconcileStop ∧
    (reconcile w c cm config).err = some e ∧
    (∀ fs rs, Event.ApplyDirectly fs rs ∉ (reconcile w c cm config).trace) ∧
    (∀ cond, Event.SetStatusCondition cond ∉ (reconcile w c cm config).trace) := by
  obtain ⟨hs1, hc1, hs2, hc2⟩ := decommissioned_frame w cm config
  have hA := removeDisabled_events w cm config config.AddOnManagerEnabled
    hubAddOnManagerRbacResourceFiles
  have hM := removeDisabled_events w (afterAddOnRemoval w cm config) config
    config.MWReplicaSetEnabled mwReplicaSetResourceFiles
  cases h1 : (removeDisabled w cm config config.AddOnManagerEnabled
      hubAddOnManagerRbacResourceFiles).2.1 with
  | some e1 =>
    rw [reconcile_of_addOn_failed w c cm config e1 h1] at h ⊢
    simp only at h ⊢
    obtain ⟨hen, hev⟩ := hA _ h
    rw [h1] at hev
    simp only [Event.cleanResources.injEq, Option.some.injEq] at hev
    obtain ⟨hf, he⟩ := hev
    subst he
    refine ⟨Or.inl ⟨hf, hen, by trivial⟩, hs1, hc1, by trivial, by trivial, ?_, ?_⟩
    · intro fs rs hmem
      have := (hA _ hmem).2
      simp at this
    · intro cond hmem
      have := (hA _ hmem).2
      simp at this
  | none =>
    cases h2 : (removeDisabled w (afterAddOnRemoval w cm config) config
        config.MWReplicaSetEnabled mwReplicaSetResourceFiles).2.1 with
    | some e2 =>
      rw [reconcile_of_mw_failed w c cm config e2 h1 h2] at h ⊢
      simp only [List.mem_append] at h ⊢
      rcases h with h | h
      · have := (hA _ h).2
        rw [h1] at this
        simp at this
      · obtain ⟨hen, hev⟩ := hM _ h
        rw [h2] at hev
        simp only [Event.cleanResources.injEq, Option.some.injEq] at hev
        obtain ⟨hf, he⟩ := hev
        subst he
        refine ⟨Or.inr ⟨hf, hen, by trivial⟩, hs2, hc2, by trivial, by trivial, ?_, ?_⟩
        · intro fs rs hmem
          rcases hmem with hmem | hmem
          · have := (hA _ hmem).2
            simp at this
          · have := (hM _ hmem).2
            simp at this
        · intro cond hmem
          rcases hmem with hmem | hmem
          · have := (hA _ hmem).2
            simp at this
          · have := (hM _ hmem).2
            simp at this
    | none =>
      exfalso
      rw [reconcile_trace_of_decommissioned w c cm config ⟨h1, h2⟩] at h
      simp only [removalTrace, List.mem_append, List.mem_cons, List.mem_singleton,
        List.not_mem_nil, or_false] at h
      rcases h with ((((h | h) | h) | h) | h)
      · have := (hA _ h).2
        rw [h1] at this
        simp at this
      · have := (hM _ h).2
        rw [h2] at this
        simp at this
      · rcases h with h | h <;> simp at h
      · obtain ⟨n, err, hd⟩ := cleanApiservice_events c _ h
        simp at hd
      · split at h <;> simp at h

/-- C3 at a concrete input: both features disabled on a cluster that refuses removals after
dropping the cluster-role entries; the descriptor comes back with its spec and its Applied
condition as they were and with the namespace entry only. -/
theorem reconcile_decommission_error_witness :
    (reconcile refusingCluster cleanClient trackedManager allDisabled).cm.Spec
      = trackedManager.Spec ∧
    (reconcile refusingCluster cleanClient trackedManager allDisabled).cm.Status.Conditions
      = trackedManager.Status.Conditions ∧
    (reconcile refusingCluster cleanClient trackedManager allDisabled).state = reconcileStop ∧
    (reconcile refusingCluster cleanClient trackedManager allDisabled).err
      = some (Errorf "removal refused") ∧
    (∀ fs rs, Event.ApplyDirectly fs rs ∉
      (reconcile refusingCluster cleanClient trackedManager allDisabled).trace) ∧
    (∀ cond, Event.SetStatusCondition cond ∉
      (reconcile refusingCluster cleanClient trackedManager allDisabled).trace) :=
  (reconcile_decommission_error refusingCluster cleanClient trackedManager allDisabled
    hubAddOnManagerRbacResourceFiles (Errorf "removal refused") (by decide)).2

/-- The descriptor returned at that input: the removal has dropped the cluster-role entry
through the pointer before it was refused. -/
theorem reconcile_decommission_error_descriptor :
    (reconcile refusingCluster cleanClient trackedManager allDisabled).cm.Status.RelatedResources
      = [{ Group := "", Version := "v1", Resource := "namespaces"
           Namespace := "", Name := "open-cluster-management-hub" }] := by
  decide

/-! ### Success -/

/-- The claim C4 as stated fails without API registration client: nothing is removed, every
apply succeeds and no deletion is attempted, so none fails, yet the pass stops with an error
and writes the failure condition. -/
theorem reconcile_success_counterexample :
    decommissionSucceeds quietCluster sampleManager allEnabled ∧
    (∀ r ∈ applyResults quietCluster sampleManager allEnabled, r.Error = none) ∧
    (∀ n err, Event.Delete n err ∉
      (reconcile quietCluster withoutClient sampleManager allEnabled).trace) ∧
    (reconcile quietCluster withoutClient sampleManager allEnabled).state = reconcileStop ∧
    (reconcile quietCluster withoutClient sampleManager allEnabled).err
      = some (Errorf "apiRegistrationClient is nil") ∧
    (reconcile quietCluster withoutClient sampleManager allEnabled).cm.Status.Conditions
      ≠ sampleManager.Status.Conditions := by
  refine ⟨by decide, by decide, ?_, by decide, by decide, by decide⟩
  intro n err h
  have ht : (reconcile quietCluster withoutClient sampleManager allEnabled).trace =
      [Event.getHubResources InstallModeDefault allEnabled,
        Event.ApplyDirectly (getHubResources InstallModeDefault allEnabled)
          (applyResults quietCluster sampleManager allEnabled),
        Event.SetStatusCondition (failureCondition [Errorf "apiRegistrationClient is nil"])] := by
    rfl
  rw [ht] at h
  simp at h

/-- C4, amended: when the decommission step succeeds, no apply result carries an error, the
API registration client is not nil and the deletion of every legacy API service succeeds or
reports not-found, the pass returns reconcileContinue and no error, leaves the status
conditions as they were and writes no condition. -/
theorem reconcile_success (w : Collaborators) (c : hubReoncile) (cm : ClusterManager)
    (config : HubConfig) (client : String → Option GoError)
    (hdec : decommissionSucceeds w cm config)
    (hres : ∀ r ∈ applyResults w cm config, r.Error = none)
    (hclient : c.hubAPIRegistrationClient = some client)
    (hdel : ∀ n ∈ hubWebhookAPIServiceNames, deletionOk (client n) = true) :
    (reconcile w c cm config).state = reconcileContinue ∧
    (reconcile w c cm config).err = none ∧
    (reconcile w c cm config).cm.Status.Conditions = cm.Status.Conditions ∧
    (reconcile w c cm config).cm.Spec = cm.Spec ∧
    (∀ cond, Event.SetStatusCondition cond ∉ (reconcile w c cm config).trace) := by
  have hclean : cleanApiservice c =
      (none, hubWebhookAPIServiceNames.map (fun n => Event.Delete n (client n))) := by
    unfold cleanApiservice
    simp only [hclient]
    exact cleanApiserviceLoop_all_ok client _ hdel
  have hfilter : (applyResults w cm config).filter (fun result => result.Error.isSome) = [] := by
    rw [List.filter_eq_nil_iff]
    intro r hr
    simp [hres r hr]
  have herrs : appliedErrsOf w c cm config = [] := by
    simp [appliedErrsOf, hclean, hfilter]
  rw [reconcile_of_decommissioned w c cm config hdec, herrs]
  simp only [List.length_nil, gt_iff_lt, lt_self_iff_false, if_false, true_and]
  intro cond hmem
  simp only [removalTrace, List.mem_append, List.mem_cons, List.mem_singleton,
    List.not_mem_nil, or_false] at hmem
  rcases hmem with (((h | h) | h) | h)
  · have := (removeDisabled_events w _ config _ _ _ h).2
    simp at this
  · have := (removeDisabled_events w _ config _ _ _ h).2
    simp at this
  · rcases h with h | h <;> simp at h
  · obtain ⟨n, err, hd⟩ := cleanApiservice_events c _ h
    simp at hd

/-- C4, amended, at a concrete input: a quiet cluster whose client finds no legacy service. -/
theorem reconcile_success_witness :
    (reconcile quietCluster cleanClient sampleManager allEnabled).state = reconcileContinue ∧
    (reconcile quietCluster cleanClient sampleManager allEnabled).err = none ∧
    (reconcile quietCluster cleanClient sampleManager allEnabled).cm.Status.Conditions
      = sampleManager.Status.Conditions ∧
    (reconcile quietCluster cleanClient sampleManager allEnabled).cm.Spec
      = sampleManager.Spec ∧
    (∀ cond, Event.SetStatusCondition cond ∉
      (reconcile quietCluster cleanClient sampleManager allEnabled).trace) :=
  reconcile_success quietCluster cleanClient sampleManager allEnabled
    (fun _ => some { text := "not found", notFound := true })
    (by decide) (by decide) rfl (by decide)

/-! ### The legacy cleanup, claim C10 -/

/-- The claim C10 as stated fails: when the deletion of the first legacy API service is
refused, the cleanup returns that error at once and never attempts the second name. -/
theorem cleanApiservice_attempts_counterexample :
    forbiddenClient.hubAPIRegistrationClient.isSome = true ∧
    "v1.admission.work.open-cluster-management.io" ∈ hubWebhookAPIServiceNames ∧
    cleanApiservice forbiddenClient =
      (some { text := "forbidden", notFound := false },
        [Event.Delete "v1.admission.cluster.open-cluster-management.io"
          (some { text := "forbidden", notFound := false })]) ∧
    (∀ err, Event.Delete "v1.admission.work.open-cluster-management.io" err ∉
      (cleanApiservice forbiddenClient).2) := by
  refine ⟨by decide, by decide, by decide, ?_⟩
  intro err h
  have ht : (cleanApiservice forbiddenClient).2 =
      [Event.Delete "v1.admission.cluster.open-cluster-management.io"
        (some { text := "forbidden", notFound := false })] := by
    rfl
  rw [ht] at h
  simp only [List.mem_singleton, Event.Delete.injEq] at h
  exact absurd h.1 (by decide)

/-- The cleanup loop attempts a name when every name before it was deleted or not found. -/
theorem cleanApiserviceLoop_attempt (client : String → Option GoError)
    (pre : List String) (name : String) (post : List String)
    (hpre : ∀ n ∈ pre, deletionOk (client n) = true) :
    Event.Delete name (client name) ∈ (cleanApiserviceLoop client (pre ++ name :: post)).2 := by
  induction pre with
  | nil =>
    simp only [List.nil_append]
    unfold cleanApiserviceLoop
    cases hc : client name with
    | none => simp
    | some e => by_cases hnf : IsNotFound e = true <;> simp [hnf]
  | cons n rest ih =>
    have hn := hpre n (by simp)
    have ih1 := ih (fun m hm => hpre m (by simp [hm]))
    simp only [List.cons_append]
    unfold cleanApiserviceLoop
    cases hcn : client n with
    | none => simp [ih1]
    | some e1 =>
      rw [hcn] at hn
      simp only [deletionOk] at hn
      simp [hn, ih1]

/-- C10, amended: with a client that is not nil, the cleanup attempts the deletion of a
legacy API service whenever the deletion of every earlier name succeeded or reported
not-found; when all do, every name is attempted in order and no error is returned; the first
deletion that fails otherwise ends the cleanup, which returns that error and leaves the
later names unattempted. -/
theorem cleanApiservice_attempts (c : hubReoncile) (client : String → Option GoError)
    (hclient : c.hubAPIRegistrationClient = some client) :
    (∀ pre name post, hubWebhookAPIServiceNames = pre ++ name :: post →
      (∀ n ∈ pre, deletionOk (client n) = true) →
      Event.Delete name (client name) ∈ (cleanApiservice c).2) ∧
    ((∀ n ∈ hubWebhookAPIServiceNames, deletionOk (client n) = true) →
      cleanApiservice c =
        (none, hubWebhookAPIServiceNames.map (fun n => Event.Delete n (client n)))) ∧
    (∀ pre name post e, hubWebhookAPIServiceNames = pre ++ name :: post →
      (∀ n ∈ pre, deletionOk (client n) = true) →
      client name = some e → IsNotFound e = false →
      cleanApiservice c =
        (some e, (pre ++ [name]).map (fun n => Event.Delete n (client n)))) := by
  have hun : cleanApiservice c = cleanApiserviceLoop client hubWebhookAPIServiceNames := by
    unfold cleanApiservice
    simp only [hclient]
  rw [hun]
  refine ⟨?_, ?_, ?_⟩
  · intro pre name post hsplit hpre
    rw [hsplit]
    exact cleanApiserviceLoop_attempt client pre name post hpre
  · intro h
    exact cleanApiserviceLoop_all_ok client _ h
  · intro pre name post e hsplit hpre hname hnf
    rw [hsplit]
    exact cleanApiserviceLoop_first_failure client pre name post e hpre hname hnf

/-- C10, amended, at a concrete input: a client that finds no legacy service is asked to
delete both names. -/
theorem cleanApiservice_attempts_witness :
    cleanApiservice cleanClient =
      (none, hubWebhookAPIServiceNames.map
        (fun n => Event.Delete n (some { text := "not found", notFound := true }))) :=
  (cleanApiservice_attempts cleanClient
    (fun _ => some { text := "not found", notFound := true }) rfl).2.1 (by decide)

/-! ### Decommission before converge, claim C7 -/

/-- The selector leaves out the group of a disabled feature and takes in the group of an
enabled one. -/
theorem getHubResources_feature_groups (mode : InstallMode) (config : HubConfig) :
    (config.AddOnManagerEnabled = false →
      ∀ f ∈ hubAddOnManagerRbacResourceFiles, f ∉ getHubResources mode config) ∧
    (config.MWReplicaSetEnabled = false →
      ∀ f ∈ mwReplicaSetResourceFiles, f ∉ getHubResources mode config) ∧
    (config.AddOnManagerEnabled = true →
      ∀ f ∈ hubAddOnManagerRbacResourceFiles, f ∈ getHubResources mode config) ∧
    (config.MWReplicaSetEnabled = true →
      ∀ f ∈ mwReplicaSetResourceFiles, f ∈ getHubResources mode config) := by
  by_cases h : mode = InstallModeHosted
  · subst h
    rw [getHubResources_hosted]
    generalize config.AddOnManagerEnabled = a
    generalize config.MWReplicaSetEnabled = m
    generalize config.RegistrationWebhook.IsIPFormat = r
    generalize config.WorkWebhook.IsIPFormat = w
    cases a <;> cases m <;> cases r <;> cases w <;> decide
  · rw [getHubResources_default mode config h]
    generalize config.AddOnManagerEnabled = a
    generalize config.MWReplicaSetEnabled = m
    cases a <;> cases m <;> decide

/-- The claim C7 as stated fails: with both features disabled on a cluster that refuses the
removal of the AddOnManager group, the pass ends there and issues no removal call for the
ManifestWorkReplicaSet group. -/
theorem reconcile_decommission_counterexample :
    allDisabled.MWReplicaSetEnabled = false ∧
    (reconcile refusingCluster cleanClient sampleManager allDisabled).trace =
      [Event.cleanResources hubAddOnManagerRbacResourceFiles
        (some (Errorf "removal refused"))] ∧
    (∀ err, Event.cleanResources mwReplicaSetResourceFiles err ∉
      (reconcile refusingCluster cleanClient sampleManager allDisabled).trace) := by
  refine ⟨rfl, by decide, ?_⟩
  intro err h
  have ht : (reconcile refusingCluster cleanClient sampleManager allDisabled).trace =
      [Event.cleanResources hubAddOnManagerRbacResourceFiles
        (some (Errorf "removal refused"))] := by
    decide
  rw [ht] at h
  simp only [List.mem_singleton, Event.cleanResources.injEq] at h
  exact absurd h.1 (by decide)

/-- C7, amended: with AddOnManagerEnabled false the first call of the pass is the removal of
exactly the AddOnManager group; with MWReplicaSetEnabled false the removal of exactly the
ManifestWorkReplicaSet group follows, unless the AddOnManager removal failed and ended the
pass; when no removal fails the removal calls come first, then the selector, then the apply
primitive on the selected set; the apply primitive is invoked only then; and the selected
set holds no identifier of a disabled feature. -/
theorem reconcile_decommission_before_converge (w : Collaborators) (c : hubReoncile)
    (cm : ClusterManager) (config : HubConfig) :
    (config.AddOnManagerEnabled = false →
      ∃ rest, (reconcile w c cm config).trace =
        Event.cleanResources hubAddOnManagerRbacResourceFiles
          (w.cleanResources cm config hubAddOnManagerRbacResourceFiles).2.2 :: rest) ∧
    (config.MWReplicaSetEnabled = false →
      (removeDisabled w cm config config.AddOnManagerEnabled
        hubAddOnManagerRbacResourceFiles).2.1 = none →
      ∃ rest, (reconcile w c cm config).trace =
        (removeDisabled w cm config config.AddOnManagerEnabled
          hubAddOnManagerRbacResourceFiles).2.2 ++
        Event.cleanResources mwReplicaSetResourceFiles
          (w.cleanResources (afterAddOnRemoval w cm config) config
            mwReplicaSetResourceFiles).2.2 :: rest) ∧
    (decommissionSucceeds w cm config →
      ∃ rest, (reconcile w c cm config).trace =
        ((if config.AddOnManagerEnabled then []
          else [Event.cleanResources hubAddOnManagerRbacResourceFiles none]) ++
        (if config.MWReplicaSetEnabled then []
          else [Event.cleanResources mwReplicaSetResourceFiles none])) ++
        Event.getHubResources cm.Spec.DeployOption.Mode config ::
        Event.ApplyDirectly (getHubResources cm.Spec.DeployOption.Mode config)
          (applyResults w cm config) :: rest) ∧
    (∀ fs rs, Event.ApplyDirectly fs rs ∈ (reconcile w c cm config).trace →
      decommissionSucceeds w cm config ∧
        fs = getHubResources cm.Spec.DeployOption.Mode config) ∧
    (config.AddOnManagerEnabled = false →
      ∀ f ∈ hubAddOnManagerRbacResourceFiles,
        f ∉ getHubResources cm.Spec.DeployOption.Mode config) ∧
    (config.MWReplicaSetEnabled = false →
      ∀ f ∈ mwReplicaSetResourceFiles,
        f ∉ getHubResources cm.Spec.DeployOption.Mode config) := by
  have hgroups := getHubResources_feature_groups cm.Spec.DeployOption.Mode config
  have hA := removeDisabled_events w cm config config.AddOnManagerEnabled
    hubAddOnManagerRbacResourceFiles
  have hM := removeDisabled_events w (afterAddOnRemoval w cm config) config
    config.MWReplicaSetEnabled mwReplicaSetResourceFiles
  refine ⟨?_, ?_, ?_, ?_, hgroups.1, hgroups.2.1⟩
  · intro hdis
    cases h1 : (removeDisabled w cm config config.AddOnManagerEnabled
        hubAddOnManagerRbacResourceFiles).2.1 with
    | some e1 =>
      rw [reconcile_of_addOn_failed w c cm config e1 h1]
      rw [hdis, removeDisabled_disabled]
      exact ⟨[], rfl⟩
    | none =>
      cases h2 : (removeDisabled w (afterAddOnRemoval w cm config) config
          config.MWReplicaSetEnabled mwReplicaSetResourceFiles).2.1 with
      | some e2 =>
        rw [reconcile_of_mw_failed w c cm config e2 h1 h2]
        rw [hdis, removeDisabled_disabled]
        exact ⟨_, rfl⟩
      | none =>
        rw [reconcile_trace_of_decommissioned w c cm config ⟨h1, h2⟩, removalTrace]
        rw [hdis, removeDisabled_disabled]
        simp only [List.append_assoc, List.singleton_append, List.cons_append,
          List.nil_append]
        exact ⟨_, rfl⟩
  · intro hdis h1
    cases h2 : (removeDisabled w (afterAddOnRemoval w cm config) config
        config.MWReplicaSetEnabled mwReplicaSetResourceFiles).2.1 with
    | some e2 =>
      rw [reconcile_of_mw_failed w c cm config e2 h1 h2]
      rw [hdis, removeDisabled_disabled]
      exact ⟨[], rfl⟩
    | none =>
      rw [reconcile_trace_of_decommissioned w c cm config ⟨h1, h2⟩, removalTrace]
      rw [hdis, removeDisabled_disabled]
      simp only [List.append_assoc, List.singleton_append, List.cons_append,
        List.nil_append]
      exact ⟨_, rfl⟩
  · intro hdec
    rw [reconcile_trace_of_decommissioned w c cm config hdec, removalTrace]
    obtain ⟨h1, h2⟩ := hdec
    have e1 : (removeDisabled w cm config config.AddOnManagerEnabled
        hubAddOnManagerRbacResourceFiles).2.2 =
        (if config.AddOnManagerEnabled then []
          else [Event.cleanResources hubAddOnManagerRbacResourceFiles none]) := by
      cases ha : config.AddOnManagerEnabled
      · rw [ha] at h1
        rw [removeDisabled_disabled] at h1 ⊢
        simp only at h1
        simp [h1]
      · simp [removeDisabled]
    have e2 : (removeDisabled w (afterAddOnRemoval w cm config) config
        config.MWReplicaSetEnabled mwReplicaSetResourceFiles).2.2 =
        (if config.MWReplicaSetEnabled then []
          else [Event.cleanResources mwReplicaSetResourceFiles none]) := by
      cases hm : config.MWReplicaSetEnabled
      · rw [hm] at h2
        rw [removeDisabled_disabled] at h2 ⊢
        simp only at h2
        simp [h2]
      · simp [removeDisabled]
    rw [e1, e2]
    simp only [List.append_assoc, List.singleton_append, List.cons_append,
      List.nil_append]
    exact ⟨_, rfl⟩
  · intro fs rs hmem
    cases h1 : (removeDisabled w cm config config.AddOnManagerEnabled
        hubAddOnManagerRbacResourceFiles).2.1 with
    | some e1 =>
      rw [reconcile_of_addOn_failed w c cm config e1 h1] at hmem
      have := (hA _ hmem).2
      simp at this
    | none =>
      cases h2 : (removeDisabled w (afterAddOnRemoval w cm config) config
          config.MWReplicaSetEnabled mwReplicaSetResourceFiles).2.1 with
      | some e2 =>
        rw [reconcile_of_mw_failed w c cm config e2 h1 h2] at hmem
        simp only [List.mem_append] at hmem
        rcases hmem with h | h
        · have := (hA _ h).2
          simp at this
        · have := (hM _ h).2
          simp at this
      | none =>
        refine ⟨⟨h1, h2⟩, ?_⟩
        rw [reconcile_trace_of_decommissioned w c cm config ⟨h1, h2⟩] at hmem
        simp only [removalTrace, List.mem_append, List.mem_cons, List.mem_singleton,
          List.not_mem_nil, or_false] at hmem
        rcases hmem with ((((h | h) | h) | h) | h)
        · have := (hA _ h).2
          simp at this
        · have := (hM _ h).2
          simp at this
        · rcases h with h | h
          · simp at h
          · simp only [Event.ApplyDirectly.injEq] at h
            exact h.1
        · obtain ⟨n, err, hd⟩ := cleanApiservice_events c _ h
          simp at hd
        · split at h <;> simp at h

/-! ### Teardown, claim C8 -/

/-- The claim C8 as stated fails: with AddOnManagerEnabled false, the list `clean` passes for
removal is the selected set, which holds no identifier of the AddOnManager group. -/
theorem clean_full_sweep_counterexample :
    (clean quietCluster sampleManager allDisabled).trace =
      [Event.getHubResources InstallModeDefault allDisabled,
        Event.cleanResources (getHubResources InstallModeDefault allDisabled) none] ∧
    (∀ f ∈ hubAddOnManagerRbacResourceFiles,
      f ∉ getHubResources InstallModeDefault allDisabled) ∧
    (∀ f ∈ mwReplicaSetResourceFiles,
      f ∉ getHubResources InstallModeDefault allDisabled) := by
  refine ⟨by decide, by decide, by decide⟩

/-- C8, amended: the list `clean` passes for removal is exactly the set selected for the
current mode and configuration; it holds the whole group of a feature when that feature is
enabled and none of the group when it is disabled (with MWReplicaSetEnabled true the
ManifestWorkReplicaSet group is in the removal list); `clean` returns what the removal
returns. -/
theorem clean_removes_selected (w : Collaborators) (cm : ClusterManager)
    (config : HubConfig) :
    (clean w cm config).trace =
      [Event.getHubResources cm.Spec.DeployOption.Mode config,
        Event.cleanResources (getHubResources cm.Spec.DeployOption.Mode config)
          (w.cleanResources cm config
            (getHubResources cm.Spec.DeployOption.Mode config)).2.2] ∧
    ((clean w cm config).cm, (clean w cm config).state, (clean w cm config).err) =
      (withRelatedResources cm
          (w.cleanResources cm config (getHubResources cm.Spec.DeployOption.Mode config)).1,
        (w.cleanResources cm config (getHubResources cm.Spec.DeployOption.Mode config)).2.1,
        (w.cleanResources cm config (getHubResources cm.Spec.DeployOption.Mode config)).2.2) ∧
    (clean w cm config).cm.Spec = cm.Spec ∧
    (clean w cm config).cm.Status.Conditions = cm.Status.Conditions ∧
    ((∀ f ∈ hubAddOnManagerRbacResourceFiles,
        f ∈ getHubResources cm.Spec.DeployOption.Mode config) ↔
      config.AddOnManagerEnabled = true) ∧
    ((∀ f ∈ mwReplicaSetResourceFiles,
        f ∈ getHubResources cm.Spec.DeployOption.Mode config) ↔
      config.MWReplicaSetEnabled = true) ∧
    ((∀ f ∈ hubAddOnManagerRbacResourceFiles,
        f ∉ getHubResources cm.Spec.DeployOption.Mode config) ↔
      config.AddOnManagerEnabled = false) ∧
    ((∀ f ∈ mwReplicaSetResourceFiles,
        f ∉ getHubResources cm.Spec.DeployOption.Mode config) ↔
      config.MWReplicaSetEnabled = false) := by
  obtain ⟨g1, g2, g3, g4⟩ := getHubResources_feature_groups cm.Spec.DeployOption.Mode config
  have ha : "cluster-manager/hub/cluster-manager-addon-manager-clusterrole.yaml" ∈
      hubAddOnManagerRbacResourceFiles := by decide
  have hm : "cluster-manager/hub/cluster-manager-manifestworkreplicaset-clusterrole.yaml" ∈
      mwReplicaSetResourceFiles := by decide
  refine ⟨rfl, rfl, rfl, rfl,
    ⟨fun h => ?_, g3⟩, ⟨fun h => ?_, g4⟩, ⟨fun h => ?_, g1⟩, ⟨fun h => ?_, g2⟩⟩
  · cases hc : config.AddOnManagerEnabled
    · exact absurd (h _ ha) (g1 hc _ ha)
    · rfl
  · cases hc : config.MWReplicaSetEnabled
    · exact absurd (h _ hm) (g2 hc _ hm)
    · rfl
  · cases hc : config.AddOnManagerEnabled
    · rfl
    · exact absurd (g3 hc _ ha) (h _ ha)
  · cases hc : config.MWReplicaSetEnabled
    · rfl
    · exact absurd (g4 hc _ hm) (h _ hm)

/-! ### Text -/

theorem Contains_refl (s : String) : Contains s s :=
  List.infix_refl _

theorem Contains_append_left (a b sub : String) (h : Contains a sub) :
    Contains (a ++ b) sub := by
  unfold Contains at h ⊢
  rw [String.data_append]
  exact h.trans (List.infix_append' [] a.data b.data |>.trans (by simp))

theorem Contains_append_right (a b sub : String) (h : Contains b sub) :
    Contains (a ++ b) sub := by
  unfold Contains at h ⊢
  rw [String.data_append]
  exact h.trans (List.suffix_append a.data b.data).isInfix

theorem Contains_trans (a b c : String) (h1 : Contains a b) (h2 : Contains b c) :
    Contains a c :=
  List.IsInfix.trans h2 h1

theorem appendEscapedRune_plain (table : Char → Bool) (r : Char) (h : plainRune r = true) :
    appendEscapedRune table r = [r] := by
  simp only [plainRune, Bool.and_eq_true, decide_eq_true_eq] at h
  obtain ⟨⟨⟨h1, h2⟩, h3⟩, h4⟩ := h
  have n1 : r ≠ Char.ofNat 34 := by
    intro hr
    apply h3
    rw [hr]
    decide
  have n2 : r ≠ Char.ofNat 92 := by
    intro hr
    apply h4
    rw [hr]
    decide
  have hp : IsPrint table r = true := by
    unfold IsPrint
    have : r.toNat ≤ 0xFF := by omega
    simp [this, h1, h2]
  simp [appendEscapedRune, n1, n2, hp]

theorem flatMap_appendEscapedRune_plain (table : Char → Bool) (l : List Char)
    (h : l.all plainRune = true) : l.flatMap (appendEscapedRune table) = l := by
  induction l with
  | nil => rfl
  | cons r rest ih =>
    simp only [List.all_cons, Bool.and_eq_true] at h
    rw [List.flatMap_cons, appendEscapedRune_plain table r h.1, ih h.2]
    rfl

/-- A string of plain runes is quoted by `%q` as itself between two double quotes, so the
quoted text contains it. -/
theorem goQuote_contains (table : Char → Bool) (s : String)
    (h : s.data.all plainRune = true) : Contains (goQuote table s) s := by
  unfold Contains goQuote
  rw [flatMap_appendEscapedRune_plain table s.data h]
  exact ⟨[Char.ofNat 34], [Char.ofNat 34], by simp⟩

/-- The verb `%q` rewrites a double quote, a backslash and a tab, so a quoted string need
not contain the string it quotes. -/
theorem goQuote_escapes :
    goQuote (fun _ => false) "a\"b\\c\td" = "\"a\\\"b\\\\c\\td\"" ∧
    ¬ Contains (goQuote (fun _ => false) "a\"b") "a\"b" := by
  decide

/-- Every identifier of the static catalogs consists of plain runes. -/
theorem catalog_plain : ∀ f ∈ catalog, f.data.all plainRune = true := by
  decide

theorem getHubResources_subset_catalog (mode : InstallMode) (config : HubConfig) :
    ∀ f ∈ getHubResources mode config, f ∈ catalog := by
  by_cases h : mode = InstallModeHosted
  · subst h
    rw [getHubResources_hosted]
    generalize config.AddOnManagerEnabled = a
    generalize config.MWReplicaSetEnabled = m
    generalize config.RegistrationWebhook.IsIPFormat = r
    generalize config.WorkWebhook.IsIPFormat = w
    cases a <;> cases m <;> cases r <;> cases w <;> decide
  · rw [getHubResources_default mode config h]
    generalize config.AddOnManagerEnabled = a
    generalize config.MWReplicaSetEnabled = m
    cases a <;> cases m <;> decide

/-- The loop of `aggregate.Error` keeps every message already in the result and adds every
message it visits. -/
theorem aggregateVisit_contains (msgs : List String) :
    ∀ (seenerrs : List String) (result : String),
      (∀ m ∈ seenerrs, Contains result m) →
      ∀ m, m ∈ msgs ∨ m ∈ seenerrs →
        Contains (aggregateVisit msgs seenerrs result).2 m := by
  induction msgs with
  | nil =>
    intro seenerrs result hseen m hm
    rcases hm with hm | hm
    · simp at hm
    · exact hseen m hm
  | cons msg rest ih =>
    intro seenerrs result hseen m hm
    unfold aggregateVisit
    by_cases hin : msg ∈ seenerrs
    · simp only [hin, if_true]
      apply ih seenerrs result hseen
      rcases hm with hm | hm
      · rcases List.mem_cons.mp hm with h | h
        · exact Or.inr (h ▸ hin)
        · exact Or.inl h
      · exact Or.inr hm
    · simp only [hin, if_false]
      apply ih
      · intro m1 hm1
        rcases List.mem_cons.mp hm1 with h | h
        · rw [h]
          exact Contains_append_right _ _ _ (Contains_refl _)
        · apply Contains_append_left
          split
          · exact Contains_append_left _ _ _ (hseen m1 h)
          · exact hseen m1 h
      · rcases hm with hm | hm
        · rcases List.mem_cons.mp hm with h | h
          · exact Or.inr (by simp [h])
          · exact Or.inl h
        · exact Or.inr (by simp [hm])

/-- The text of a combined error contains the text of each of its members. -/
theorem aggregateError_contains (errs : List GoError) (e : GoError) (he : e ∈ errs) :
    Contains (aggregateError errs) e.text := by
  match errs, he with
  | [e1], he =>
    simp only [List.mem_singleton] at he
    subst he
    exact Contains_refl _
  | e1 :: e2 :: rest, he =>
    have hv : Contains (aggregateVisit ((e1 :: e2 :: rest).map GoError.text) [] "").2
        e.text :=
      aggregateVisit_contains _ _ _ (by simp) _ (Or.inl (List.mem_map_of_mem _ he))
    simp only [aggregateError]
    split
    · exact hv
    · apply Contains_append_left
      apply Contains_append_right
      exact hv

/-- Two member errors with one message are rendered as that message, without brackets;
two distinct messages are joined between brackets. -/
theorem aggregateError_examples :
    aggregateError [Errorf "a", Errorf "a"] = "a" ∧
    aggregateError [Errorf "a", Errorf "b", Errorf "a"] = "[a, b]" := by
  decide

/-! ### The upsert -/

theorem updateCondition_fields (now : Nat) (c new : Condition) :
    (updateCondition now c new).Type' = c.Type' ∧
    (updateCondition now c new).Status = new.Status ∧
    (updateCondition now c new).Reason = new.Reason ∧
    (updateCondition now c new).Message = new.Message := by
  unfold updateCondition
  by_cases h : c.Status = new.Status <;> simp [h]

/-- After the upsert the list holds a condition with the type, status, reason and message
of the new one. -/
theorem SetStatusCondition_holds (now : Nat) (l : List Condition) (new : Condition) :
    ∃ c ∈ SetStatusCondition now l new,
      c.Type' = new.Type' ∧ c.Status = new.Status ∧ c.Reason = new.Reason ∧
        c.Message = new.Message := by
  induction l with
  | nil =>
    refine ⟨_, List.mem_singleton.mpr rfl, ?_⟩
    split <;> simp
  | cons c rest ih =>
    unfold SetStatusCondition
    by_cases h : c.Type' = new.Type'
    · simp only [h, if_true]
      obtain ⟨h1, h2, h3, h4⟩ := updateCondition_fields now c new
      exact ⟨_, List.mem_cons_self _ _, h1.trans h, h2, h3, h4⟩
    · simp only [h, if_false]
      obtain ⟨d, hd, hp⟩ := ih
      exact ⟨d, List.mem_cons_of_mem _ hd, hp⟩

/-! ### Failure, claim C2 -/

/-- C2: when the decommission step succeeds and at least one result of the apply primitive,
run on the selected set, carries an error, the pass returns reconcileStop and the combined
error, which is not nil, and the status conditions afterwards hold a condition of type
Applied with status False and reason HubResourceApplyFailed whose message contains the file
identifier, and the whole error line, of every failing result. -/
theorem reconcile_apply_failure (w : Collaborators) (c : hubReoncile) (cm : ClusterManager)
    (config : HubConfig)
    (hdec : decommissionSucceeds w cm config)
    (hfiles : ∀ r ∈ applyResults w cm config,
      r.File ∈ getHubResources cm.Spec.DeployOption.Mode config)
    (hfail : ∃ r ∈ applyResults w cm config, r.Error.isSome = true) :
    (reconcile w c cm config).state = reconcileStop ∧
    (reconcile w c cm config).err = NewAggregate (appliedErrsOf w c cm config) ∧
    (reconcile w c cm config).err ≠ none ∧
    ∃ cond ∈ (reconcile w c cm config).cm.Status.Conditions,
      cond.Type' = "Applied" ∧ cond.Status = "False" ∧
      cond.Reason = "HubResourceApplyFailed" ∧
      ∀ r ∈ applyResults w cm config, r.Error.isSome = true →
        Contains cond.Message r.File ∧ Contains cond.Message (resultError w r).text := by
  obtain ⟨r0, hr0, hr0e⟩ := hfail
  have hmem : ∀ r ∈ applyResults w cm config, r.Error.isSome = true →
      resultError w r ∈ appliedErrsOf w c cm config := by
    intro r hr he
    unfold appliedErrsOf
    apply List.mem_append_right
    exact List.mem_map_of_mem _ (List.mem_filter.mpr ⟨hr, he⟩)
  have hpos : (appliedErrsOf w c cm config).length > 0 :=
    List.length_pos_of_mem (hmem r0 hr0 hr0e)
  have hne : (appliedErrsOf w c cm config).length ≠ 0 := by omega
  rw [reconcile_of_decommissioned w c cm config hdec]
  simp only [hpos, if_true]
  refine ⟨trivial, trivial, by simp [NewAggregate, hne], ?_⟩
  obtain ⟨cond, hcond, h1, h2, h3, h4⟩ := SetStatusCondition_holds w.now cm.Status.Conditions
    (failureCondition (appliedErrsOf w c cm config))
  refine ⟨cond, hcond, h1, h2, h3, ?_⟩
  intro r hr he
  have hline : Contains cond.Message (resultError w r).text := by
    rw [h4]
    simp only [failureCondition, NewAggregate, hne, if_false, fmtV]
    apply Contains_append_right
    exact aggregateError_contains _ _ (hmem r hr he)
  refine ⟨?_, hline⟩
  apply Contains_trans _ _ _ hline
  simp only [resultError, Errorf]
  apply Contains_append_left
  apply Contains_append_left
  apply Contains_append_left
  apply Contains_append_left
  apply goQuote_contains
  exact catalog_plain _ (getHubResources_subset_catalog _ _ _ (hfiles r hr))

/-- C2 at a concrete input: three resources fail and two succeed. -/
theorem reconcile_apply_failure_witness :
    (reconcile failingCluster cleanClient sampleManager allEnabled).state = reconcileStop ∧
    (reconcile failingCluster cleanClient sampleManager allEnabled).err =
      NewAggregate (appliedErrsOf failingCluster cleanClient sampleManager allEnabled) ∧
    (reconcile failingCluster cleanClient sampleManager allEnabled).err ≠ none ∧
    ∃ cond ∈ (reconcile failingCluster cleanClient sampleManager allEnabled).cm.Status.Conditions,
      cond.Type' = "Applied" ∧ cond.Status = "False" ∧
      cond.Reason = "HubResourceApplyFailed" ∧
      ∀ r ∈ applyResults failingCluster sampleManager allEnabled, r.Error.isSome = true →
        Contains cond.Message r.File ∧
          Contains cond.Message (resultError failingCluster r).text :=
  reconcile_apply_failure failingCluster cleanClient sampleManager allEnabled
    (by decide) (by decide) (by decide)

set_option maxRecDepth 100000 in
/-- The failure condition written at the concrete input of three failing and two succeeding
resources, with the message as Go renders it. -/
theorem reconcile_apply_failure_message :
    (reconcile failingCluster cleanClient sampleManager allEnabled).cm.Status.Conditions =
      [{ Type' := "Applied", Status := "False", ObservedGeneration := 0
         LastTransitionTime := 1, Reason := "HubResourceApplyFailed"
         Message := "Failed to apply hub resources: [\"cluster-manager/cluster-manager-namespace.yaml\" (string): namespaces is forbidden, \"cluster-manager/hub/cluster-manager-registration-clusterrole.yaml\" (string): clusterroles is forbidden, \"cluster-manager/hub/cluster-manager-registration-clusterrolebinding.yaml\" (string): clusterrolebindings is forbidden]" }] := by
  decide

/-! ### The upsert, position and frame -/

theorem stampedCondition_type (now : Nat) (new : Condition) :
    (stampedCondition now new).Type' = new.Type' := by
  unfold stampedCondition
  split <;> rfl

/-- With no condition of the type in the list, the upsert appends the new condition. -/
theorem SetStatusCondition_absent (now : Nat) (l : List Condition) (new : Condition)
    (h : ∀ d ∈ l, d.Type' ≠ new.Type') :
    SetStatusCondition now l new = l ++ [stampedCondition now new] := by
  induction l with
  | nil => rfl
  | cons c rest ih =>
    unfold SetStatusCondition
    have hc := h c (by simp)
    simp only [hc, if_false, List.cons_append]
    rw [ih (fun d hd => h d (by simp [hd]))]

/-- With one condition of the type in a list of distinct types, the upsert updates that
condition where it stands. -/
theorem SetStatusCondition_present (now : Nat) (new : Condition) (pre : List Condition) :
    ∀ (l : List Condition) (d : Condition) (post : List Condition),
      (l.map Condition.Type').Nodup → l = pre ++ d :: post → d.Type' = new.Type' →
      SetStatusCondition now l new = pre ++ updateCondition now d new :: post := by
  induction pre with
  | nil =>
    intro l d post _ hl hd
    subst hl
    simp only [List.nil_append]
    unfold SetStatusCondition
    simp [hd]
  | cons p pre1 ih =>
    intro l d post hnd hl hd
    subst hl
    simp only [List.cons_append, List.map_cons, List.nodup_cons] at hnd ⊢
    have hp : p.Type' ≠ new.Type' := by
      intro hp
      apply hnd.1
      rw [hp, ← hd]
      exact List.mem_map_of_mem _ (by simp)
    unfold SetStatusCondition
    simp only [hp, if_false]
    rw [ih (pre1 ++ d :: post) d post hnd.2 rfl hd]

/-- The upsert leaves every condition of another type as it was, in the same order. -/
theorem SetStatusCondition_others (now : Nat) (l : List Condition) (new : Condition) :
    (SetStatusCondition now l new).filter (fun d => decide (d.Type' ≠ new.Type')) =
      l.filter (fun d => decide (d.Type' ≠ new.Type')) := by
  induction l with
  | nil =>
    have := stampedCondition_type now new
    unfold stampedCondition at this
    simp [SetStatusCondition, this]
  | cons c rest ih =>
    unfold SetStatusCondition
    by_cases h : c.Type' = new.Type'
    · have hu := (updateCondition_fields now c new).1
      simp [h, hu]
    · simp only [h, if_false, List.filter_cons, ih]

/-- After the upsert into a list of distinct types exactly one condition has the type. -/
theorem SetStatusCondition_one (now : Nat) (l : List Condition) (new : Condition)
    (hnd : (l.map Condition.Type').Nodup) :
    ((SetStatusCondition now l new).filter (fun d => decide (d.Type' = new.Type'))).length
      = 1 := by
  induction l with
  | nil =>
    have := stampedCondition_type now new
    unfold stampedCondition at this
    simp [SetStatusCondition, this]
  | cons c rest ih =>
    simp only [List.map_cons, List.nodup_cons] at hnd
    unfold SetStatusCondition
    by_cases h : c.Type' = new.Type'
    · have hu := (updateCondition_fields now c new).1
      have hrest : rest.filter (fun d => decide (d.Type' = new.Type')) = [] := by
        rw [List.filter_eq_nil_iff]
        intro d hd
        simp only [decide_eq_true_eq]
        intro hdt
        apply hnd.1
        rw [h, ← hdt]
        exact List.mem_map_of_mem _ hd
      simp [h, hu, hrest]
    · simp only [h, if_false, List.filter_cons, decide_False, Bool.false_eq_true]
      exact ih hnd.2

/-! ### The frame of the failure path, claim C9 -/

/-- C9: for a prior list of status conditions with at most one condition per type, after a
pass that ends on the failure path the list holds exactly one condition of type Applied,
appended if none existed and updated where it stood if one did, and the conditions of every
other type are unchanged and in the same order. -/
theorem reconcile_failure_upsert (w : Collaborators) (c : hubReoncile) (cm : ClusterManager)
    (config : HubConfig)
    (hnodup : (cm.Status.Conditions.map Condition.Type').Nodup)
    (hdec : decommissionSucceeds w cm config)
    (herr : 0 < (appliedErrsOf w c cm config).length) :
    (reconcile w c cm config).state = reconcileStop ∧
    ((reconcile w c cm config).cm.Status.Conditions.filter
      (fun d => decide (d.Type' = clusterManagerApplied))).length = 1 ∧
    (reconcile w c cm config).cm.Status.Conditions.filter
        (fun d => decide (d.Type' ≠ clusterManagerApplied)) =
      cm.Status.Conditions.filter (fun d => decide (d.Type' ≠ clusterManagerApplied)) ∧
    ((∀ d ∈ cm.Status.Conditions, d.Type' ≠ clusterManagerApplied) →
      (reconcile w c cm config).cm.Status.Conditions =
        cm.Status.Conditions ++
          [stampedCondition w.now (failureCondition (appliedErrsOf w c cm config))]) ∧
    (∀ pre d post, cm.Status.Conditions = pre ++ d :: post →
      d.Type' = clusterManagerApplied →
      (reconcile w c cm config).cm.Status.Conditions =
        pre ++ updateCondition w.now d (failureCondition (appliedErrsOf w c cm config))
          :: post) := by
  rw [reconcile_of_decommissioned w c cm config hdec]
  simp only [gt_iff_lt, herr, if_true]
  refine ⟨trivial, ?_, ?_, ?_, ?_⟩
  · exact SetStatusCondition_one w.now _ (failureCondition (appliedErrsOf w c cm config)) hnodup
  · exact SetStatusCondition_others w.now _ (failureCondition (appliedErrsOf w c cm config))
  · intro h
    exact SetStatusCondition_absent w.now _ _ h
  · intro pre d post hl hd
    exact SetStatusCondition_present w.now _ pre _ d post hnodup hl hd

/-- C9 at a concrete input: an Applied condition between two others is updated in place. -/
theorem reconcile_failure_upsert_witness :
    (reconcile failingCluster cleanClient appliedManager allEnabled).cm.Status.Conditions.map
        Condition.Type' = ["Progressing", "Applied", "Degraded"] ∧
    (reconcile failingCluster cleanClient appliedManager allEnabled).cm.Status.Conditions.filter
        (fun d => decide (d.Type' ≠ clusterManagerApplied)) =
      appliedManager.Status.Conditions.filter
        (fun d => decide (d.Type' ≠ clusterManagerApplied)) :=
  ⟨by decide,
    (reconcile_failure_upsert failingCluster cleanClient appliedManager allEnabled
      (by decide) (by decide) (by decide)).2.2.1⟩

end ClusterManagerHub
